import Mathlib

/-!
Shallow embedding of `src/tsc_now.rs` (minstant's TSC calibration and read
path) and proofs about it.

Modelling conventions:
* Rust `u64` values are `Nat`s; where the source relies on wrapping
  two's-complement behaviour (`wrapping_sub`) the modulus `2 ^ 64` is made
  explicit.
* Rust `f64` arithmetic is modelled by exact rational arithmetic (`ℚ`);
  every spot where the source computes in `f64` is noted in the doc comment
  of the corresponding definition.
* Code paths that panic (wrong-variant access, out-of-bounds indexing,
  `assert_eq!` in worker threads) are modelled by explicit result types
  (`CycleResult.panic`, `Option.none`).
* Nondeterministic inputs of the real program (hardware counter reads,
  monotonic clock samples, contents of kernel-exposed files, thread
  behaviour) become explicit parameters of the Lean functions.
-/

/-- The modulus of Rust `u64` arithmetic. -/
def UINT64_MOD : Nat := 2 ^ 64

/-- Rust's `u64::wrapping_sub` on `Nat` representatives below `2 ^ 64`. -/
def wrappingSub (a b : Nat) : Nat := (a + UINT64_MOD - b) % UINT64_MOD

/-- The calibration outcome enum `TSCLevel` from `tsc_now.rs` (lines 76-87):
`Stable` carries `cycles_per_second` and one scalar `cycles_from_anchor`;
`PerCPUStable` carries `cycles_per_second` and a `Vec<u64>` of per-CPU
anchors (modelled as `List Nat`); `Unstable` carries nothing. -/
inductive TSCLevel where
  | Stable (cycles_per_second : Nat) (cycles_from_anchor : Nat)
  | PerCPUStable (cycles_per_second : Nat) (cycles_from_anchor : List Nat)
  | Unstable
deriving DecidableEq

/-- Result of a call that may panic: either a panic with the panic message,
or a normal `u64` return value. -/
inductive CycleResult where
  | panic (msg : String)
  | ok (cycles : Nat)
deriving DecidableEq

/-- `TSCLevel::cycles_per_second` (lines 171-182). The `Unstable` arm
panics in the source; modelled as `none`. -/
def TSCLevel.cycles_per_second : TSCLevel → Option Nat
  | .Stable cps _ => some cps
  | .PerCPUStable cps _ => some cps
  | .Unstable => none

/-- `current_cycle` (lines 59-74). The hardware reads are parameters:
`tsc_read` is the value `tsc()` would return (used by the `Stable` arm),
and `tscp_read = (tsc, cpuid)` is the value `tsc_with_cpuid()` would
return (used by the `PerCPUStable` arm, which indexes the anchor table by
that read's own `cpuid`). `Vec` indexing panics when out of bounds, and
the `Unstable` arm panics with "tsc is unstable". -/
def current_cycle (lvl : TSCLevel) (tsc_read : Nat) (tscp_read : Nat × Nat) :
    CycleResult :=
  match lvl with
  | .Stable _ cycles_from_anchor => .ok (wrappingSub tsc_read cycles_from_anchor)
  | .PerCPUStable _ cycles_from_anchor =>
      match cycles_from_anchor[tscp_read.2]? with
      | some anchor => .ok (wrappingSub tscp_read.1 anchor)
      | none => .panic "index out of bounds"
  | .Unstable => .panic "tsc is unstable"

/-- The process-wide `TSCState` (lines 14-24): availability flag, the
calibration level and the `f64` scale factor (modelled as `ℚ`). -/
structure TSCState where
  is_tsc_available : Bool
  tsc_level : TSCLevel
  nanos_per_cycle : ℚ

/-- `init` (lines 28-42), as a pure function of the calibration outcome:
availability is `true` for the `Stable { .. }` and `PerCPUStable { .. }`
arms and `false` for `Unstable`; when available, `nanos_per_cycle` is set
to `1e9 / cycles_per_second` (an `f64` division in the source, exact `ℚ`
here); otherwise it keeps its static initial value `1.0`. The `getD 0` is
never the `0` default when available, because `cycles_per_second` is
`some` on both available arms. -/
def init (tsc_level : TSCLevel) : TSCState :=
  let is_tsc_available :=
    match tsc_level with
    | .Stable _ _ => true
    | .PerCPUStable _ _ => true
    | .Unstable => false
  { is_tsc_available := is_tsc_available,
    tsc_level := tsc_level,
    nanos_per_cycle :=
      if is_tsc_available then
        (1000000000 : ℚ) / ((tsc_level.cycles_per_second.getD 0 : Nat) : ℚ)
      else 1 }

/-- `is_tsc_available` (lines 44-47): reads the stored flag. -/
def is_tsc_available (st : TSCState) : Bool := st.is_tsc_available

/-- `get_tsc_level` (lines 49-52): reads (a clone of) the stored level. -/
def get_tsc_level (st : TSCState) : TSCLevel := st.tsc_level

/-- The mutable locals of the merge loop in `TSCLevel::get` (lines 139-157):
`max_cps`, `min_cps`, `sum_cps` and the table `cycles_from_anchor`. -/
structure MergeState where
  max_cps : Nat
  min_cps : Nat
  sum_cps : Nat
  cycles_from_anchor : List Nat
deriving DecidableEq

/-- The `for (cpuid, cps, cfa) in results` loop of `TSCLevel::get`
(lines 148-157): updates the running max and min, adds into `sum_cps`
(a `u64` addition, hence the `% UINT64_MOD`), and writes `cfa` into the
table slot `cpuid`. (`Vec` indexed assignment would panic out of bounds;
inside `TSCLevel::get` every `cpuid` is within `max_cpu_id + 1` by
construction, and `List.set` is the in-bounds behaviour.) -/
def merge_loop : List (Nat × Nat × Nat) → MergeState → MergeState
  | [], st => st
  | (cpuid, cps, cfa) :: rest, st =>
      merge_loop rest
        { max_cps := if st.max_cps < cps then cps else st.max_cps,
          min_cps := if cps < st.min_cps then cps else st.min_cps,
          sum_cps := (st.sum_cps + cps) % UINT64_MOD,
          cycles_from_anchor := st.cycles_from_anchor.set cpuid cfa }

/-- The cross-core spread gate of `TSCLevel::get` (line 158). The source
computes `(max_cps - min_cps) as f64 / min_cps as f64 > 0.0005` in `f64`;
in exact arithmetic, for `min_cps > 0`, that inequality is
`2000 * (max_cps - min_cps) > min_cps` over `Nat` (`0.0005 = 1/2000`).
The `Nat` form also matches the `f64` edge cases with `min_cps = 0`:
`d / 0.0` is `+inf` (exceeds) for `d > 0` and `NaN` (does not exceed,
as `NaN > 0.0005` is false) for `d = 0`. -/
def spread_exceeds (max_cps min_cps : Nat) : Bool :=
  decide (min_cps < 2000 * (max_cps - min_cps))

/-- The merge step of the per-CPU branch of `TSCLevel::get`
(lines 139-165): run the loop starting from `max_cps = u64::MIN`,
`min_cps = u64::MAX`, `sum_cps = 0` and a zero-filled table of size
`max_cpu_id + 1`; if the spread gate trips, the level is `Unstable`,
otherwise `PerCPUStable` with `cycles_per_second = sum_cps / len`
(integer division) and the filled table. -/
def merge_results (max_cpu_id : Nat) (results : List (Nat × Nat × Nat)) :
    TSCLevel :=
  let st := merge_loop results
    ⟨0, UINT64_MOD - 1, 0, List.replicate (max_cpu_id + 1) 0⟩
  if spread_exceeds st.max_cps st.min_cps then .Unstable
  else .PerCPUStable (st.sum_cps / results.length) st.cycles_from_anchor

/-- The list of per-core frequencies in a result list (each result is
`(cpuid, cycles_per_second, cycles_from_anchor)`). -/
def freqs (results : List (Nat × Nat × Nat)) : List Nat :=
  results.map fun r => r.2.1

/-- What the merge loop's `max_cps` computes: fold of `max` from `0`. -/
def max_freq (results : List (Nat × Nat × Nat)) : Nat :=
  (freqs results).foldl max 0

/-- What the merge loop's `min_cps` computes: fold of `min` from
`u64::MAX`. -/
def min_freq (results : List (Nat × Nat × Nat)) : Nat :=
  (freqs results).foldl min (UINT64_MOD - 1)

/-- Modelled from the spec's wording of the gate condition, for comparison
with the source's `spread_exceeds`: `(max - min) / min > 0.0005` in exact
rational arithmetic. -/
def spec_spread_exceeds (max_cps min_cps : Nat) : Prop :=
  ((max_cps : ℚ) - (min_cps : ℚ)) / (min_cps : ℚ) > 0.0005

/-- The observable behaviour of one calibration worker thread of
`TSCLevel::get` (lines 116-128), from the thread's point of view:
whether `set_affinity` succeeded, which core id the serializing read
reported, and the calibration numbers it would produce. -/
structure WorkerEnv where
  affinity_ok : Bool
  reported_cpuid : Nat
  cps : Nat
  cfa : Nat

/-- One worker thread's body (lines 117-127): `set_affinity(id).unwrap()`
panics on affinity failure; `assert_eq!(cpuid, id)` panics when the
reported core id differs from the requested pinned id; otherwise the
worker returns `(id, cps, cfa)`. A panicking worker is `none` (its
`join` returns `Err`); `none` also covers any other abnormal
termination. -/
def run_worker (id : Nat) (env : WorkerEnv) : Option (Nat × Nat × Nat) :=
  if env.affinity_ok then
    if env.reported_cpuid = id then some (id, env.cps, env.cfa) else none
  else none

/-- `handles.map(|h| h.join()).collect::<Result<Vec<_>, _>>()`
(line 131): all results, or `none` as soon as any worker failed. -/
def collect_results : List (Option (Nat × Nat × Nat)) →
    Option (List (Nat × Nat × Nat))
  | [] => some []
  | none :: _ => none
  | some r :: rest => (collect_results rest).map fun l => r :: l

/-- The per-CPU branch of `TSCLevel::get` (lines 100-166): `cpus` is the
result of `available_cpus()` (`none` for `Err`), `env` gives each spawned
worker's behaviour. An unreadable or empty CPU list, or any failed
worker, yields `Unstable`; otherwise the results are merged. -/
def tsc_level_get_percpu (cpus : Option (List Nat)) (env : Nat → WorkerEnv) :
    TSCLevel :=
  match cpus with
  | none => .Unstable
  | some cpuids =>
    if cpuids = [] then .Unstable
    else
      let max_cpu_id := cpuids.foldl max 0
      match collect_results (cpuids.map fun id => run_worker id (env id)) with
      | none => .Unstable
      | some results => merge_results max_cpu_id results

/-- Ceiling division on `Nat`: `(a + b - 1) / b`. For `b > 0` this equals
`⌈a / b⌉` in exact arithmetic (`ceil_div_eq_natCeil` below). -/
def ceil_div (a b : Nat) : Nat := (a + b - 1) / b

/-- The anchor computation at the end of `cycles_per_sec` (lines 256-258):
`nanos_from_anchor = (last_monotonic - anchor).as_nanos()` (a non-negative
duration, here a `Nat` parameter), then
`cycles_flied = cps as f64 * nanos_from_anchor as f64 / 1e9` followed by
`.ceil() as u64`, and finally the `u64` subtraction
`last_tsc - cycles_flied.ceil() as u64` (wrapping in release builds).
The `f64` product and division are modelled exactly, so the `ceil` step
is exact ceiling division by `1e9`. -/
def cycles_from_anchor_calc (cps nanos_from_anchor last_tsc : Nat) : Nat :=
  wrappingSub last_tsc (ceil_div (cps * nanos_from_anchor) 1000000000)

/-- Rust's `core::num::ParseIntError` for `usize` parsing: it stores only
an error kind — no copy of the offending input. `empty` for an empty
input, `invalidDigit` for a non-digit character (including a lone sign,
or a minus sign on an unsigned type), `posOverflow` past `usize::MAX`. -/
inductive ParseIntError where
  | empty
  | invalidDigit
  | posOverflow
deriving DecidableEq

/-- The digit loop of Rust's `from_str_radix` (radix 10, unsigned 64-bit):
each step multiplies the accumulator by 10 and adds the digit, failing
with `posOverflow` when the result would exceed `usize::MAX` (the
`checked_mul` / `checked_add` failures both map to `posOverflow`), and
with `invalidDigit` on a non-digit character. -/
def parse_digits : List Char → Nat → Except ParseIntError Nat
  | [], acc => .ok acc
  | c :: cs, acc =>
      if c.isDigit then
        if acc * 10 + (c.toNat - 48) < UINT64_MOD then
          parse_digits cs (acc * 10 + (c.toNat - 48))
        else .error .posOverflow
      else .error .invalidDigit

/-- Rust's `str::parse::<usize>` on the character list of the token:
empty input is `empty`; a lone `+` or `-` is `invalidDigit`; a leading
`+` is stripped; a leading `-` on the unsigned type falls through to the
digit loop and fails as `invalidDigit`. -/
def parse_usize (s : List Char) : Except ParseIntError Nat :=
  match s with
  | [] => .error .empty
  | [c] => if c = '+' ∨ c = '-' then .error .invalidDigit else parse_digits [c] 0
  | c :: cs => if c = '+' then parse_digits cs 0 else parse_digits (c :: cs) 0

/-- Rust's `str::split(',')` on character lists: splits at every
separator, keeping empty segments (so `"a,,b"` gives three segments and
`""` gives one empty segment). -/
def split_on_char (sep : Char) : List Char → List (List Char)
  | [] => [[]]
  | c :: cs =>
      let rest := split_on_char sep cs
      if c = sep then [] :: rest
      else
        match rest with
        | [] => [[c]]
        | g :: gs => (c :: g) :: gs

/-- Rust's `str::trim` on character lists: drops leading and trailing
whitespace. (Rust trims Unicode whitespace; `Char.isWhitespace` covers
the ASCII subset — space, tab, carriage return, newline — which is all
that occurs in the `/sys` range-list input.) -/
def trim_chars (cs : List Char) : List Char :=
  ((cs.dropWhile Char.isWhitespace).reverse.dropWhile Char.isWhitespace).reverse

/-- Rust's `splitn(2, '-')` restricted to an input containing `'-'`:
the characters before the first separator, and everything after it. -/
def split_first (sep : Char) : List Char → List Char × List Char
  | [] => ([], [])
  | c :: cs =>
      if c = sep then ([], cs)
      else
        let p := split_first sep cs
        (c :: p.1, p.2)

/-- One `set` of the loop in `parse_cpu_list_format` (lines 368-379): a
token containing `'-'` is split once at the first `'-'` and both sides
are parsed as `usize` (the `ok_or("expected from")` / `ok_or("expected
to")` paths are dead code, since `splitn(2, '-')` on a string containing
`'-'` always yields exactly two parts); `from..=to` pushes `from, ...,
to` in order (nothing when `from > to`). A token without `'-'` is parsed
as a single integer. -/
def parse_set (set : List Char) : Except ParseIntError (List Nat) :=
  if set.contains '-' then
    let ft := split_first '-' set
    match parse_usize ft.1 with
    | .error e => .error e
    | .ok f =>
        match parse_usize ft.2 with
        | .error e => .error e
        | .ok t => .ok (List.range' f (t + 1 - f))
  else
    match parse_usize set with
    | .error e => .error e
    | .ok n => .ok [n]

/-- The `for set in list.split(',')` loop of `parse_cpu_list_format`:
tokens are processed left to right, pushing each token's expansion in
order onto the accumulated result; the first failing token aborts with
its `ParseIntError` (boxed into `Box<dyn Error>` in the source). -/
def parse_sets : List (List Char) → Except ParseIntError (List Nat)
  | [] => .ok []
  | s :: rest =>
      match parse_set s with
      | .error e => .error e
      | .ok xs =>
          match parse_sets rest with
          | .error e => .error e
          | .ok ys => .ok (xs ++ ys)

/-- `parse_cpu_list_format` (lines 365-382): trim the input, split on
`','`, parse every token. -/
def parse_cpu_list_format (list : String) :
    Except ParseIntError (List Nat) :=
  parse_sets (split_on_char ',' (trim_chars list.data))

/-- `TscReadError` (lines 225-229): the error type of the TSC-frequency
file reader. `FailedToRead` wraps the I/O error (modelled by its raw OS
error code); `FailedToParse` pairs the numeric-parse failure with the
offending string (the whole file content). This is the only error type
in the module that carries the offending substring. -/
inductive TscReadError where
  | FailedToRead (os_error_code : Nat)
  | FailedToParse (e : ParseIntError) (s : List Char)
deriving DecidableEq

/-- `try_read_tsc_freq_khz` (lines 235-241): `contents` is the outcome of
`read_to_string` (`Except` error code or file content); a read failure
becomes `FailedToRead`, a parse failure of the trimmed content becomes
`FailedToParse` carrying the untrimmed content. -/
def try_read_tsc_freq_khz (contents : Except Nat (List Char)) :
    Except TscReadError Nat :=
  match contents with
  | .error k => .error (.FailedToRead k)
  | .ok s =>
      match parse_usize (trim_chars s) with
      | .error e => .error (.FailedToParse e s)
      | .ok n => .ok n

/-- One `(Instant::now(), tsc())` pair from `monotonic_with_tsc`
(lines 295-297): the monotonic time in nanoseconds and the counter
value observed by one call. -/
structure Sample where
  t : Nat
  c : Nat
deriving DecidableEq

/-- The inner busy-poll loop of `_calculate_cycles_per_sec` (lines
272-281): keep taking fresh samples `(t2, tsc2)` until the elapsed wall
time since `t1` exceeds 10 ms (`elapsed_nanos > 10_000_000`). `source n`
is the `n`-th call to `monotonic_with_tsc` in program order; `fuel`
bounds how many polls are modelled (the source loop itself is
unbounded). Returns the index of the next unused sample together with
the breaking sample. -/
def sample_until_window (source : Nat → Sample) (t1 : Nat) :
    Nat → Nat → Option (Nat × Sample)
  | _, 0 => none
  | n, fuel + 1 =>
      if 10000000 < (source n).t - t1 then some (n + 1, source n)
      else sample_until_window source t1 (n + 1) fuel

/-- The estimate `(tsc2 - tsc1) as f64 * 1e9 / elapsed_nanos as f64`
of line 278, with the `f64` arithmetic modelled exactly over `ℚ` (the
`u64` and `u128` subtractions are the truncating `Nat` subtractions of
monotone quantities). -/
def cps_estimate (s1 s2 : Sample) : ℚ :=
  ((s2.c - s1.c : Nat) : ℚ) * 1000000000 / ((s2.t - s1.t : Nat) : ℚ)

/-- The outer convergence loop of `_calculate_cycles_per_sec` (lines
270-287): the previous estimate `old_cycles` starts at `0.0`; each
iteration takes a fresh start sample `(t1, tsc1)`, busy-polls one
window, computes the estimate, and stops once
`|cps - old_cycles| / cps < 0.00001`, otherwise loops with the new
estimate from the next unused sample. `fuel` bounds the number of outer
iterations modelled. -/
def calib_loop (source : Nat → Sample) (innerFuel : Nat) :
    Nat → ℚ → Nat → Option (ℚ × Sample)
  | 0, _, _ => none
  | fuel + 1, old_cycles, n =>
      (sample_until_window source (source n).t (n + 1) innerFuel).bind fun p =>
        if |cps_estimate (source n) p.2 - old_cycles| /
            cps_estimate (source n) p.2 < 0.00001 then
          some (cps_estimate (source n) p.2, p.2)
        else calib_loop source innerFuel fuel (cps_estimate (source n) p.2) p.1

/-- `_calculate_cycles_per_sec` (lines 264-290): run the convergence loop
from `old_cycles = 0.0`, then round the final estimate to the nearest
integer (`f64::round`; on the non-negative estimates produced here this
agrees with `round`) and return it with the last sample. -/
def calculate_cycles_per_sec (source : Nat → Sample) (fuel innerFuel : Nat) :
    Option (Nat × Sample) :=
  (calib_loop source innerFuel fuel 0 0).map fun r => ((round r.1).toNat, r.2)

/-- A synthetic sample source behaving as a counter with constant true
rate of `rate` cycles per nanosecond: the `n`-th call to
`monotonic_with_tsc` observes monotonic time `times n` and counter
`c0 + rate * times n`. -/
def synthetic_source (times : Nat → Nat) (rate c0 : Nat) : Nat → Sample :=
  fun n => ⟨times n, c0 + rate * times n⟩

/-- Helper: `wrapping_sub` coincides with plain subtraction when no
underflow occurs. -/
theorem wrappingSub_of_le {a b : Nat} (hba : b ≤ a) (ha : a < UINT64_MOD) :
    wrappingSub a b = a - b := by
  unfold wrappingSub UINT64_MOD at *
  omega

/-- Helper: `wrapping_sub` is subtraction modulo `2 ^ 64` on the integers. -/
theorem wrappingSub_eq_int_emod {a b : Nat} (ha : a < UINT64_MOD)
    (hb : b < UINT64_MOD) :
    wrappingSub a b = (((a : ℤ) - (b : ℤ)) % (2 ^ 64 : ℤ)).toNat := by
  unfold wrappingSub UINT64_MOD at *
  omega

/-- C1: for a `Stable` level, `current_cycle` returns the raw counter read
minus the stored scalar `cycles_from_anchor`; for a `PerCPUStable` level it
returns the counter value of the serializing read minus the table entry
indexed by the core id returned by that same read. (Stated in the
no-underflow regime; the wrapping regime is `current_cycle_wrapping`.) -/
theorem current_cycle_spec (cps cfa : Nat) (tbl : List Nat)
    (tsc_read tscp cpuid : Nat)
    (hidx : cpuid < tbl.length)
    (h1 : cfa ≤ tsc_read) (h2 : tsc_read < UINT64_MOD)
    (h3 : tbl.getD cpuid 0 ≤ tscp) (h4 : tscp < UINT64_MOD) :
    current_cycle (.Stable cps cfa) tsc_read (tscp, cpuid) =
      .ok (tsc_read - cfa) ∧
    current_cycle (.PerCPUStable cps tbl) tsc_read (tscp, cpuid) =
      .ok (tscp - tbl.getD cpuid 0) := by
  constructor
  · simp only [current_cycle, wrappingSub_of_le h1 h2]
  · simp only [current_cycle]
    rw [List.getElem?_eq_getElem hidx]
    rw [List.getD_eq_getElem tbl 0 hidx] at h3 ⊢
    simp only [wrappingSub_of_le h3 h4]

/-- C1 witness: concrete instantiation of `current_cycle_spec`. -/
theorem current_cycle_spec_witness :
    current_cycle (.Stable 7 100) 250 (300, 1) = .ok 150 ∧
    current_cycle (.PerCPUStable 7 [40, 60]) 250 (300, 1) = .ok 240 :=
  current_cycle_spec 7 100 [40, 60] 250 300 1 (by decide) (by decide)
    (by decide) (by decide) (by decide)

/-- C2: with an `Unstable` level, `current_cycle` panics with the message
"tsc is unstable", whatever the hardware reads are, and never returns a
value. -/
theorem current_cycle_unstable_panics (tsc_read : Nat) (tscp_read : Nat × Nat) :
    current_cycle .Unstable tsc_read tscp_read = .panic "tsc is unstable" ∧
    ∀ n, current_cycle .Unstable tsc_read tscp_read ≠ .ok n := by
  refine ⟨rfl, ?_⟩
  intro n h
  exact CycleResult.noConfusion h

/-- C10: in the `Stable` and `PerCPUStable` arms the subtraction is
`wrapping_sub`, i.e. subtraction modulo `2 ^ 64` on the integers, so the
call returns a value (never fails) even when the raw counter read is
numerically smaller than the stored offset. -/
theorem current_cycle_wrapping (cps cfa : Nat) (tbl : List Nat)
    (tsc_read tscp cpuid : Nat)
    (hidx : cpuid < tbl.length)
    (ha : tsc_read < UINT64_MOD) (hb : cfa < UINT64_MOD)
    (hc : tscp < UINT64_MOD) (hd : tbl.getD cpuid 0 < UINT64_MOD) :
    current_cycle (.Stable cps cfa) tsc_read (tscp, cpuid) =
      .ok ((((tsc_read : ℤ) - (cfa : ℤ)) % (2 ^ 64 : ℤ)).toNat) ∧
    current_cycle (.PerCPUStable cps tbl) tsc_read (tscp, cpuid) =
      .ok ((((tscp : ℤ) - (tbl.getD cpuid 0 : ℤ)) % (2 ^ 64 : ℤ)).toNat) := by
  constructor
  · simp only [current_cycle, wrappingSub_eq_int_emod ha hb]
  · simp only [current_cycle]
    rw [List.getElem?_eq_getElem hidx]
    rw [List.getD_eq_getElem tbl 0 hidx] at hd ⊢
    simp only [wrappingSub_eq_int_emod hc hd]

/-- C10 witness: an underflowing read (counter 5, offset 10) yields
`(5 - 10) mod 2 ^ 64 = 2 ^ 64 - 5`, not a failure. -/
theorem current_cycle_wrapping_witness :
    current_cycle (.Stable 7 10) 5 (5, 0) = .ok 18446744073709551611 ∧
    current_cycle (.PerCPUStable 7 [10]) 5 (5, 0) = .ok 18446744073709551611 := by
  have h := current_cycle_wrapping 7 10 [10] 5 5 0 (by decide) (by decide)
    (by decide) (by decide) (by decide)
  exact ⟨h.1.trans (by decide), h.2.trans (by decide)⟩

/-- C9: availability gating. The stored flag is `false` iff the stored
level is `Unstable`, and `true` exactly when the outcome is `Stable` or
`PerCPUStable`; `init` stores the level unchanged. -/
theorem is_tsc_available_iff (lvl : TSCLevel) :
    (is_tsc_available (init lvl) = false ↔ get_tsc_level (init lvl) = .Unstable) ∧
    (is_tsc_available (init lvl) = true ↔
      ((∃ cps cfa, lvl = .Stable cps cfa) ∨
        (∃ cps tbl, lvl = .PerCPUStable cps tbl))) ∧
    get_tsc_level (init lvl) = lvl := by
  cases lvl <;> simp [init, is_tsc_available, get_tsc_level]

/-- C9 witness: concrete instantiation of `is_tsc_available_iff` at the
`Unstable` outcome. -/
theorem is_tsc_available_iff_witness :
    (is_tsc_available (init .Unstable) = false ↔
      get_tsc_level (init .Unstable) = .Unstable) ∧
    (is_tsc_available (init .Unstable) = true ↔
      ((∃ cps cfa, TSCLevel.Unstable = .Stable cps cfa) ∨
        (∃ cps tbl, TSCLevel.Unstable = .PerCPUStable cps tbl))) ∧
    get_tsc_level (init .Unstable) = .Unstable :=
  is_tsc_available_iff .Unstable

/-- Helper: the fold init is below the max fold. -/
theorem le_foldl_max (l : List Nat) (a : Nat) : a ≤ l.foldl max a := by
  induction l generalizing a with
  | nil => exact Nat.le_refl a
  | cons b l ih => exact le_trans (Nat.le_max_left a b) (ih (max a b))

/-- Helper: every member is below the max fold. -/
theorem mem_le_foldl_max {x : Nat} {l : List Nat} (a : Nat) (hx : x ∈ l) :
    x ≤ l.foldl max a := by
  induction l generalizing a with
  | nil => cases hx
  | cons b l ih =>
      rcases List.mem_cons.mp hx with h | h
      · subst h
        exact le_trans (Nat.le_max_right a x) (le_foldl_max l (max a x))
      · exact ih (max a b) h

/-- Helper: the min fold is below the fold init. -/
theorem foldl_min_le (l : List Nat) (a : Nat) : l.foldl min a ≤ a := by
  induction l generalizing a with
  | nil => exact Nat.le_refl a
  | cons b l ih => exact le_trans (ih (min a b)) (Nat.min_le_left a b)

/-- Helper: the min fold is below every member. -/
theorem foldl_min_le_mem {x : Nat} {l : List Nat} (a : Nat) (hx : x ∈ l) :
    l.foldl min a ≤ x := by
  induction l generalizing a with
  | nil => cases hx
  | cons b l ih =>
      rcases List.mem_cons.mp hx with h | h
      · subst h
        exact le_trans (foldl_min_le l (min a x)) (Nat.min_le_right a x)
      · exact ih (min a b) h

/-- Helper: the min fold of a positive init over positive members is
positive. -/
theorem foldl_min_pos {l : List Nat} {a : Nat} (ha : 0 < a)
    (hl : ∀ x ∈ l, 0 < x) : 0 < l.foldl min a := by
  induction l generalizing a with
  | nil => exact ha
  | cons b l ih =>
      exact ih (lt_min ha (hl b (List.mem_cons_self b l)))
        fun x hx => hl x (List.mem_cons_of_mem b hx)

/-- Helper: the merge loop's `max_cps` is the fold of `max` over the
frequencies. -/
theorem merge_loop_max (rs : List (Nat × Nat × Nat)) (st : MergeState) :
    (merge_loop rs st).max_cps = (freqs rs).foldl max st.max_cps := by
  induction rs generalizing st with
  | nil => rfl
  | cons r rs ih =>
      obtain ⟨cpuid, cps, cfa⟩ := r
      rw [merge_loop, ih]
      simp only [freqs, List.map_cons, List.foldl_cons]
      congr 1
      rw [Nat.max_def]
      split <;> split <;> omega

/-- Helper: the merge loop's `min_cps` is the fold of `min` over the
frequencies. -/
theorem merge_loop_min (rs : List (Nat × Nat × Nat)) (st : MergeState) :
    (merge_loop rs st).min_cps = (freqs rs).foldl min st.min_cps := by
  induction rs generalizing st with
  | nil => rfl
  | cons r rs ih =>
      obtain ⟨cpuid, cps, cfa⟩ := r
      rw [merge_loop, ih]
      simp only [freqs, List.map_cons, List.foldl_cons]
      congr 1
      rw [Nat.min_def]
      split <;> split <;> omega

/-- Helper: while the running total stays below `2 ^ 64`, the merge loop's
`sum_cps` is the plain sum of the frequencies. -/
theorem merge_loop_sum (rs : List (Nat × Nat × Nat)) (st : MergeState)
    (h : st.sum_cps + (freqs rs).sum < UINT64_MOD) :
    (merge_loop rs st).sum_cps = st.sum_cps + (freqs rs).sum := by
  induction rs generalizing st with
  | nil => simp [freqs, merge_loop]
  | cons r rs ih =>
      obtain ⟨cpuid, cps, cfa⟩ := r
      simp only [freqs, List.map_cons, List.sum_cons] at h ⊢
      have hlt : st.sum_cps + cps < UINT64_MOD := by omega
      rw [merge_loop, ih]
      · simp only [Nat.mod_eq_of_lt hlt, freqs]
        omega
      · simp only [freqs, Nat.mod_eq_of_lt hlt]
        omega

/-- Helper: the source's `Nat`-level spread gate agrees with the spec's
exact rational formulation whenever `0 < min ≤ max`. -/
theorem spread_exceeds_iff {max_cps min_cps : Nat} (hm : 0 < min_cps)
    (hle : min_cps ≤ max_cps) :
    spread_exceeds max_cps min_cps = true ↔
      spec_spread_exceeds max_cps min_cps := by
  have hm' : (0 : ℚ) < (min_cps : ℚ) := by exact_mod_cast hm
  have hcast : ((max_cps : ℚ) - (min_cps : ℚ)) = ((max_cps - min_cps : Nat) : ℚ) := by
    push_cast [hle]
    ring
  unfold spread_exceeds spec_spread_exceeds
  rw [hcast]
  have h0005 : (0.0005 : ℚ) = 1 / 2000 := by norm_num
  rw [h0005, gt_iff_lt, div_lt_div_iff₀ (by norm_num) hm', decide_eq_true_eq]
  constructor
  · intro h
    have hn : min_cps < (max_cps - min_cps) * 2000 := by omega
    have hq : (min_cps : ℚ) < ((max_cps - min_cps : Nat) : ℚ) * 2000 := by
      exact_mod_cast hn
    linarith
  · intro h
    have hq : (min_cps : ℚ) < ((max_cps - min_cps : Nat) : ℚ) * 2000 := by linarith
    have hn : min_cps < (max_cps - min_cps) * 2000 := by exact_mod_cast hq
    omega

/-- C3: merging a non-empty list of per-core calibration results computes
min, max and sum of the per-core frequencies; if `(max - min) / min >
0.0005` (exact arithmetic) the outcome is `Unstable`, otherwise
`PerCPUStable` with `cycles_per_second` the truncating integer average.
The two concrete frequency triples of the spec behave as stated. The
side conditions require the `u64` running sum not to wrap and the
frequencies to be positive (a frequency of `0` cycles per second cannot
arise from the calibrator). -/
theorem merge_results_spec (max_cpu_id : Nat)
    (results : List (Nat × Nat × Nat))
    (hne : results ≠ [])
    (hsum : (freqs results).sum < UINT64_MOD)
    (hpos : ∀ r ∈ results, 0 < r.2.1) :
    ((spec_spread_exceeds (max_freq results) (min_freq results) →
        merge_results max_cpu_id results = .Unstable) ∧
      (¬ spec_spread_exceeds (max_freq results) (min_freq results) →
        ∃ tbl, merge_results max_cpu_id results =
          .PerCPUStable ((freqs results).sum / results.length) tbl)) ∧
    merge_results 2 [(0, 1000000, 11), (1, 1000100, 22), (2, 999950, 33)] =
      .PerCPUStable 1000016 [11, 22, 33] ∧
    merge_results 2 [(0, 1000000, 11), (1, 1005000, 22), (2, 999000, 33)] =
      .Unstable := by
  refine ⟨?_, by decide, by decide⟩
  have hfpos : ∀ y ∈ freqs results, 0 < y := by
    intro y hy
    obtain ⟨r, hr, rfl⟩ := List.mem_map.mp hy
    exact hpos r hr
  obtain ⟨r, rs, rfl⟩ : ∃ r rs, results = r :: rs := by
    cases results with
    | nil => exact absurd rfl hne
    | cons r rs => exact ⟨r, rs, rfl⟩
  have hxmem : r.2.1 ∈ freqs (r :: rs) := by
    simp [freqs]
  have hle : min_freq (r :: rs) ≤ max_freq (r :: rs) :=
    le_trans (foldl_min_le_mem _ hxmem) (mem_le_foldl_max _ hxmem)
  have hminpos : 0 < min_freq (r :: rs) :=
    foldl_min_pos (by unfold UINT64_MOD; omega) hfpos
  have hmax : (merge_loop (r :: rs)
      ⟨0, UINT64_MOD - 1, 0, List.replicate (max_cpu_id + 1) 0⟩).max_cps =
      max_freq (r :: rs) :=
    merge_loop_max (r :: rs) _
  have hmin : (merge_loop (r :: rs)
      ⟨0, UINT64_MOD - 1, 0, List.replicate (max_cpu_id + 1) 0⟩).min_cps =
      min_freq (r :: rs) :=
    merge_loop_min (r :: rs) _
  have hsum' : (merge_loop (r :: rs)
      ⟨0, UINT64_MOD - 1, 0, List.replicate (max_cpu_id + 1) 0⟩).sum_cps =
      (freqs (r :: rs)).sum := by
    rw [merge_loop_sum (r :: rs) _ (by simpa using hsum)]
    simp
  constructor
  · intro hspread
    have htrue : spread_exceeds (max_freq (r :: rs)) (min_freq (r :: rs)) = true :=
      (spread_exceeds_iff hminpos hle).mpr hspread
    unfold merge_results
    simp only [hmax, hmin, htrue, if_true]
  · intro hns
    have hfalse : spread_exceeds (max_freq (r :: rs)) (min_freq (r :: rs)) = false := by
      rw [Bool.eq_false_iff]
      intro htrue
      exact hns ((spread_exceeds_iff hminpos hle).mp htrue)
    refine ⟨(merge_loop (r :: rs)
      ⟨0, UINT64_MOD - 1, 0, List.replicate (max_cpu_id + 1) 0⟩).cycles_from_anchor, ?_⟩
    unfold merge_results
    simp only [hmax, hmin, hsum', hfalse, Bool.false_eq_true, if_false]

/-- C3 witness: concrete instantiation of the general part of
`merge_results_spec` at a one-core result list. -/
theorem merge_results_spec_witness :
    ∃ tbl, merge_results 0 [(0, 4, 1)] = .PerCPUStable 4 tbl := by
  have hns : ¬ spec_spread_exceeds (max_freq [(0, 4, 1)]) (min_freq [(0, 4, 1)]) := by
    have hmax : max_freq [(0, 4, 1)] = 4 := by decide
    have hmin : min_freq [(0, 4, 1)] = 4 := by decide
    rw [hmax, hmin]
    unfold spec_spread_exceeds
    norm_num
  exact (merge_results_spec 0 [(0, 4, 1)] (by decide) (by decide)
    (by decide)).1.2 hns

/-- Helper: a failing worker anywhere in the list makes the joined
collection fail. -/
theorem collect_results_map_none (l : List Nat)
    (f : Nat → Option (Nat × Nat × Nat)) (id : Nat)
    (hmem : id ∈ l) (hf : f id = none) :
    collect_results (l.map f) = none := by
  induction l with
  | nil => cases hmem
  | cons a l ih =>
      rcases List.mem_cons.mp hmem with h | h
      · subst h
        simp [collect_results, hf]
      · cases hfa : f a with
        | none => simp [collect_results, hfa]
        | some r => simp [collect_results, hfa, ih h]

/-- C8: whenever the per-core orchestration cannot produce a complete
consistent result — the online-CPU list is unreadable (`none`) or empty,
or any worker fails (affinity error, reported core id differing from the
requested pinned id, or abnormal termination, all of which make
`run_worker` return `none`) — the classification is `Unstable`, which
carries no table, so no partial results are exposed. -/
theorem percpu_orchestration_unstable_on_failure (env : Nat → WorkerEnv)
    (cpuids : List Nat) (id : Nat)
    (hmem : id ∈ cpuids) (hfail : run_worker id (env id) = none) :
    tsc_level_get_percpu none env = .Unstable ∧
    tsc_level_get_percpu (some []) env = .Unstable ∧
    tsc_level_get_percpu (some cpuids) env = .Unstable := by
  refine ⟨rfl, rfl, ?_⟩
  have hne : cpuids ≠ [] := by
    rintro rfl
    cases hmem
  simp only [tsc_level_get_percpu]
  rw [if_neg hne]
  simp only [collect_results_map_none cpuids (fun i => run_worker i (env i))
    id hmem hfail]

/-- C8 witness: a single worker whose affinity call fails (and one whose
reported core id mismatches would equally return `none`) forces
`Unstable` on all three failure shapes. -/
theorem percpu_orchestration_unstable_on_failure_witness :
    tsc_level_get_percpu none (fun _ => ⟨false, 0, 0, 0⟩) = .Unstable ∧
    tsc_level_get_percpu (some []) (fun _ => ⟨false, 0, 0, 0⟩) = .Unstable ∧
    tsc_level_get_percpu (some [0]) (fun _ => ⟨false, 0, 0, 0⟩) = .Unstable :=
  percpu_orchestration_unstable_on_failure (fun _ => ⟨false, 0, 0, 0⟩) [0] 0
    (List.mem_singleton.mpr rfl) rfl

/-- Helper: `ceil_div · 1000000000` is the exact rational ceiling. -/
theorem ceil_div_eq_natCeil (a : Nat) :
    ceil_div a 1000000000 = ⌈(a : ℚ) / 1000000000⌉₊ := by
  have hb : (0 : ℚ) < 1000000000 := by norm_num
  apply le_antisymm
  · rcases Nat.eq_zero_or_pos (ceil_div a 1000000000) with h0 | hpos
    · omega
    · have hlt : (ceil_div a 1000000000 - 1) * 1000000000 < a := by
        unfold ceil_div at hpos ⊢
        omega
      have hq : ((ceil_div a 1000000000 - 1 : Nat) : ℚ) < (a : ℚ) / 1000000000 := by
        rw [lt_div_iff hb]
        exact_mod_cast hlt
      have h2 := Nat.lt_ceil.mpr hq
      omega
  · apply Nat.ceil_le.mpr
    have hle : a ≤ ceil_div a 1000000000 * 1000000000 := by
      unfold ceil_div
      omega
    rw [div_le_iff hb]
    exact_mod_cast hle

/-- C4: the Anchor Synchronizer returns
`cycles_from_anchor = last_tsc - ceil(cps * nanos_from_anchor / 1e9)`,
the elapsed-cycles term rounded up: whenever `1e9` does not divide the
product exactly, the subtracted term is `floor + 1`, never the floor or
the nearest integer. (Stated under the in-range hypotheses that make the
`u64` subtraction non-wrapping.) -/
theorem cycles_from_anchor_ceil (cps nanos last_tsc : Nat)
    (h1 : ceil_div (cps * nanos) 1000000000 ≤ last_tsc)
    (h2 : last_tsc < UINT64_MOD) :
    cycles_from_anchor_calc cps nanos last_tsc =
      last_tsc - ⌈((cps : ℚ) * (nanos : ℚ)) / 1000000000⌉₊ ∧
    (¬ (1000000000 ∣ cps * nanos) →
      cycles_from_anchor_calc cps nanos last_tsc =
        last_tsc - (cps * nanos / 1000000000 + 1)) := by
  have hcast : ((cps : ℚ) * (nanos : ℚ)) = ((cps * nanos : Nat) : ℚ) := by
    push_cast
    ring
  have hmain : cycles_from_anchor_calc cps nanos last_tsc =
      last_tsc - ceil_div (cps * nanos) 1000000000 := by
    unfold cycles_from_anchor_calc
    exact wrappingSub_of_le h1 h2
  constructor
  · rw [hmain, hcast, ← ceil_div_eq_natCeil]
  · intro hndvd
    rw [hmain]
    have : ceil_div (cps * nanos) 1000000000 = cps * nanos / 1000000000 + 1 := by
      unfold ceil_div
      omega
    rw [this]

/-- C4 witness: `cps * nanos = 3`, so the subtracted term is
`ceil(3 / 1e9) = 1 = floor + 1`. -/
theorem cycles_from_anchor_ceil_witness :
    cycles_from_anchor_calc 3 1 100 =
      100 - ⌈((3 : ℚ) * (1 : ℚ)) / 1000000000⌉₊ ∧
    (¬ (1000000000 ∣ 3 * 1) →
      cycles_from_anchor_calc 3 1 100 = 100 - (3 * 1 / 1000000000 + 1)) :=
  cycles_from_anchor_ceil 3 1 100 (by decide) (by decide)

/-- C6: parsing the literal range-lists of the spec yields exactly the
stated order-preserving expansions, and in general the parser returns
the concatenation, in source order, of each token's expansion — no
deduplication or sorting. -/
theorem parse_cpu_list_format_spec :
    parse_cpu_list_format "0-2,7,12-14" = .ok [0, 1, 2, 7, 12, 13, 14] ∧
    parse_cpu_list_format "0-4,9" = .ok [0, 1, 2, 3, 4, 9] ∧
    parse_cpu_list_format "0-15" =
      .ok [0, 1, 2, 3, 4, 5, 6, 7, 8, 9, 10, 11, 12, 13, 14, 15] ∧
    ∀ ts ls, List.Forall₂ (fun t l => parse_set t = .ok l) ts ls →
      parse_sets ts = .ok ls.flatten := by
  refine ⟨rfl, rfl, rfl, ?_⟩
  intro ts ls h
  induction h with
  | nil => rfl
  | cons h1 _ ih => simp [parse_sets, h1, ih]

/-- C6 witness: the general order-preservation clause of
`parse_cpu_list_format_spec` applied to the concrete token list
`["1", "0"]` (note the output keeps source order, unsorted). -/
theorem parse_cpu_list_format_spec_witness :
    parse_sets [['1'], ['0']] = .ok (([[1], [0]] : List (List Nat)).flatten) :=
  parse_cpu_list_format_spec.2.2.2 [['1'], ['0']] [[1], [0]]
    (List.Forall₂.cons rfl (List.Forall₂.cons rfl List.Forall₂.nil))

/-- C7 counterexample: two different offending tokens produce the
identical error value, so the error returned by the range-list parser
cannot carry the offending substring — `ParseIntError` (like Rust's
`core::num::ParseIntError` it models) stores only an error kind. -/
theorem parse_error_carries_no_substring :
    parse_cpu_list_format "x" = .error .invalidDigit ∧
    parse_cpu_list_format "y" = .error .invalidDigit :=
  ⟨rfl, rfl⟩

/-- C7 (amended): an input whose token list contains a malformed token is
rejected with the underlying numeric-parse failure of the first such
token — never silently skipped. (The parser's error does not carry the
offending substring; only `TscReadError.FailedToParse`, used by
`try_read_tsc_freq_khz`, pairs the parse failure with the offending
string.) -/
theorem parse_sets_error_on_bad_token (pre : List (List Char))
    (t : List Char) (post : List (List Char)) (e : ParseIntError)
    (hpre : ∀ s ∈ pre, ∃ l, parse_set s = .ok l)
    (ht : parse_set t = .error e) :
    parse_sets (pre ++ t :: post) = .error e := by
  induction pre with
  | nil => simp [parse_sets, ht]
  | cons s pre ih =>
      obtain ⟨l, hl⟩ := hpre s (List.mem_cons_self s pre)
      have hrest := ih fun s' hs' => hpre s' (List.mem_cons_of_mem s hs')
      simp [parse_sets, hl, hrest]

/-- C7 witness: `"1,x"`-style token list; the valid token `"1"` parses,
the malformed `"x"` aborts the parse with `invalidDigit`. -/
theorem parse_sets_error_on_bad_token_witness :
    parse_sets [['1'], ['x']] = .error .invalidDigit := by
  have h := parse_sets_error_on_bad_token [['1']] ['x'] [] .invalidDigit
    (fun s hs => by
      rw [List.mem_singleton] at hs
      subst hs
      exact ⟨[1], rfl⟩) rfl
  simpa using h

/-- Helper: strictly increasing sample times grow at least linearly. -/
theorem times_add_le {times : Nat → Nat}
    (h : ∀ n, times n < times (n + 1)) (m k : Nat) :
    times m + k ≤ times (m + k) := by
  induction k with
  | zero => simp
  | succ k ih =>
      have h1 := h (m + k)
      have h2 : m + (k + 1) = (m + k) + 1 := by omega
      rw [h2]
      omega

/-- Helper: with enough fuel, the busy-poll loop returns a sample at or
after the start index satisfying the 10 ms window condition. -/
theorem sample_until_window_finds (source : Nat → Sample) (t1 : Nat) :
    ∀ fuel m, (∃ j, j < fuel ∧ 10000000 < (source (m + j)).t - t1) →
      ∃ i, m ≤ i ∧ 10000000 < (source i).t - t1 ∧
        sample_until_window source t1 m fuel = some (i + 1, source i) := by
  intro fuel
  induction fuel with
  | zero =>
      rintro m ⟨j, hj, -⟩
      omega
  | succ fuel ih =>
      rintro m ⟨j, hjlt, hj⟩
      by_cases hc : 10000000 < (source m).t - t1
      · exact ⟨m, le_refl m, hc, by simp [sample_until_window, hc]⟩
      · have hj0 : j ≠ 0 := by
          rintro rfl
          simp only [Nat.add_zero] at hj
          exact hc hj
        obtain ⟨i, him, hi, heq⟩ := ih (m + 1) ⟨j - 1, by omega, by
          have hrw : m + 1 + (j - 1) = m + j := by omega
          rw [hrw]
          exact hj⟩
        refine ⟨i, by omega, hi, ?_⟩
        simp [sample_until_window, hc, heq]

/-- Helper: over a synthetic constant-rate source, the estimate computed
from any two samples with strictly increasing times is exactly
`rate * 1e9`. -/
theorem cps_estimate_synthetic (times : Nat → Nat) (rate c0 : Nat)
    (i j : Nat) (hij : times i < times j) :
    cps_estimate (synthetic_source times rate c0 i)
      (synthetic_source times rate c0 j) = (rate : ℚ) * 1000000000 := by
  unfold cps_estimate synthetic_source
  simp only
  have hc : c0 + rate * times i ≤ c0 + rate * times j :=
    Nat.add_le_add_left (Nat.mul_le_mul_left rate hij.le) c0
  have hne : ((times j : ℚ) - (times i : ℚ)) ≠ 0 := by
    have hlt : (times i : ℚ) < (times j : ℚ) := by exact_mod_cast hij
    linarith
  rw [Nat.cast_sub hc, Nat.cast_sub hij.le]
  push_cast
  field_simp
  ring

/-- Helper: one unfolding step of the outer convergence loop. -/
theorem calib_loop_succ (source : Nat → Sample) (innerFuel fuel : Nat)
    (old_cycles : ℚ) (n : Nat) :
    calib_loop source innerFuel (fuel + 1) old_cycles n =
      (sample_until_window source (source n).t (n + 1) innerFuel).bind fun p =>
        if |cps_estimate (source n) p.2 - old_cycles| /
            cps_estimate (source n) p.2 < 0.00001 then
          some (cps_estimate (source n) p.2, p.2)
        else calib_loop source innerFuel fuel (cps_estimate (source n) p.2) p.1 := by
  rfl

/-- C5: feeding the convergence loop a synthetic counter with constant
true rate (`rate` cycles per nanosecond, sampled at strictly increasing
nanosecond times) terminates within 2 outer iterations (and at most
`1e7 + 1` polls per window), and the rounded estimate equals the true
rate `rate * 1e9` cycles per second exactly — in particular it is within
the `1e-5` relative tolerance of the true rate. -/
theorem calculate_cycles_per_sec_converges (times : Nat → Nat)
    (rate c0 : Nat)
    (hmono : ∀ n, times n < times (n + 1)) (hrate : 0 < rate) :
    ∃ s, calculate_cycles_per_sec (synthetic_source times rate c0)
      2 10000001 = some (rate * 1000000000, s) := by
  have hts : ∀ n, (synthetic_source times rate c0 n).t = times n :=
    fun n => rfl
  have hgrow : ∀ n k, times n + k ≤ times (n + k) := times_add_le hmono
  have hpremise : ∀ n, ∃ j, j < 10000001 ∧
      10000000 < (synthetic_source times rate c0 (n + 1 + j)).t - times n := by
    intro n
    refine ⟨10000000, by omega, ?_⟩
    rw [hts]
    have h := hgrow n 10000001
    have hrw : n + 1 + 10000000 = n + 10000001 := by omega
    rw [hrw]
    omega
  obtain ⟨i1, hi1, hw1, heq1⟩ := sample_until_window_finds
    (synthetic_source times rate c0) (times 0) 10000001 1 (hpremise 0)
  rw [hts] at hw1
  have ht01 : times 0 < times i1 := by omega
  have hcps1 := cps_estimate_synthetic times rate c0 0 i1 ht01
  obtain ⟨i2, hi2, hw2, heq2⟩ := sample_until_window_finds
    (synthetic_source times rate c0) (times (i1 + 1)) 10000001 (i1 + 2)
    (hpremise (i1 + 1))
  rw [hts] at hw2
  have ht12 : times (i1 + 1) < times i2 := by omega
  have hcps2 := cps_estimate_synthetic times rate c0 (i1 + 1) i2 ht12
  have hq : (0 : ℚ) < (rate : ℚ) * 1000000000 := by
    have hr : (0 : ℚ) < (rate : ℚ) := by exact_mod_cast hrate
    have : (0 : ℚ) < (1000000000 : ℚ) := by norm_num
    exact mul_pos hr this
  have hcond1 : ¬ (|(rate : ℚ) * 1000000000 - 0| /
      ((rate : ℚ) * 1000000000) < 0.00001) := by
    rw [sub_zero, abs_of_pos hq, div_self (ne_of_gt hq)]
    norm_num
  have hcond2 : |(rate : ℚ) * 1000000000 - (rate : ℚ) * 1000000000| /
      ((rate : ℚ) * 1000000000) < 0.00001 := by
    rw [sub_self, abs_zero, zero_div]
    norm_num
  have hstep2 : calib_loop (synthetic_source times rate c0) 10000001 1
      ((rate : ℚ) * 1000000000) (i1 + 1) =
      some ((rate : ℚ) * 1000000000, synthetic_source times rate c0 i2) := by
    rw [show (1 : Nat) = 0 + 1 from rfl, calib_loop_succ, hts (i1 + 1), heq2,
      Option.some_bind]
    simp only
    rw [hcps2, if_pos hcond2]
  have hloop : calib_loop (synthetic_source times rate c0) 10000001 2 0 0 =
      some ((rate : ℚ) * 1000000000, synthetic_source times rate c0 i2) := by
    rw [show (2 : Nat) = 1 + 1 from rfl, calib_loop_succ, hts 0, heq1,
      Option.some_bind]
    simp only
    rw [hcps1, if_neg hcond1]
    exact hstep2
  refine ⟨synthetic_source times rate c0 i2, ?_⟩
  unfold calculate_cycles_per_sec
  rw [hloop, Option.map_some']
  have hround : (round ((rate : ℚ) * 1000000000)).toNat =
      rate * 1000000000 := by
    have hc : ((rate : ℚ) * 1000000000) =
        ((rate * 1000000000 : Nat) : ℚ) := by
      push_cast
      ring
    rw [hc, round_natCast, Int.toNat_natCast]
  simp only
  rw [hround]

/-- C5 witness: a synthetic source sampled every `1e7 + 1` ns with rate
3 cycles per nanosecond converges to exactly `3e9` cycles per second. -/
theorem calculate_cycles_per_sec_converges_witness :
    ∃ s, calculate_cycles_per_sec
      (synthetic_source (fun n => 10000001 * n) 3 5) 2 10000001 =
      some (3000000000, s) :=
  calculate_cycles_per_sec_converges (fun n => 10000001 * n) 3 5
    (fun n => by
      show 10000001 * n < 10000001 * (n + 1)
      omega) (by omega)
